import Mathlib

/-!
Shallow embedding of the ticket-allocation core of the Gatherraa contract
(`src/contract/ticket_contract/src/allocation.rs` and `entropy.rs`).

Machine integers are modelled as `Nat` with explicit `% 2 ^ 32` where a
`u64 -> u32` cast truncates and `min _ (2 ^ 32 - 1)` where the source uses
`saturating_add`; `u64`/`u128` subtraction and multiplication are modelled
as checked operations returning `Option` (a `none` models the arithmetic
panic of the source, as does the `none` on a remainder by zero).
Addresses are modelled as `Nat`; `Bytes` values as `List Nat`.
-/

namespace Gatherraa

/-- Structure `LotteryEntry` from allocation.rs: participant address, entry timestamp,
nonce and optional commitment hash. -/
structure LotteryEntry where
  participant : Nat
  entry_time : Nat
  nonce : Nat
  commitment_hash : Option Nat
  deriving DecidableEq, Repr

instance : Inhabited LotteryEntry := ⟨⟨0, 0, 0, none⟩⟩

/-- Structure `WhitelistEntry` from allocation.rs. -/
structure WhitelistEntry where
  address : Nat
  weight : Nat
  allocation_limit : Nat
  allocated : Nat
  deriving DecidableEq, Repr

/-- Structure `AntiSnipingConfig` from allocation.rs. -/
structure AntiSnipingConfig where
  minimum_lock_period : Nat
  max_entries_per_address : Nat
  rate_limit_window : Nat
  randomization_delay_ledgers : Nat
  deriving DecidableEq, Repr

/-- Structure `AllocationResult` from allocation.rs. -/
structure AllocationResult where
  winner : Nat
  allocation_index : Nat
  randomness_value : Nat
  weight_applied : Nat
  deriving DecidableEq, Repr

/-- Model of `allocate_fcfs` (allocation.rs lines 83-100): loop
`for i in 0..quantity.min(entries.len())`, pushing the i-th entry as winner
with `allocation_index = i`, `randomness_value = 0`, `weight_applied = 1`
whenever `entries.get(i)` succeeds. -/
def allocate_fcfs (entries : List LotteryEntry) (quantity : Nat) : List AllocationResult :=
  (List.range (min quantity entries.length)).filterMap fun i =>
    (entries.get? i).map fun entry =>
      { winner := entry.participant
        allocation_index := i
        randomness_value := 0
        weight_applied := 1 }

/-- The loop body of `allocate_lottery` (allocation.rs lines 113-141).
The first list argument is the remaining randomness values, the `Nat`
argument the loop counter `i`, the last list the `selected_indices`
accumulator. `pool_size = entries.len() - selected_indices.len()`; a zero
pool makes `randomness % pool_size` a remainder by zero, which panics in
the source and is `none` here. The remap `actual_index` walks
`selected_indices` in insertion order, bumping by one at each element that
is `<=` the running value; the result is pushed only when
`actual_index < entries.len()`. -/
def lotteryAux (entries : List LotteryEntry) :
    List Nat → Nat → List Nat → Option (List AllocationResult)
  | [], _, _ => some []
  | randomness :: rest, i, selected =>
    let poolSize := entries.length - selected.length
    if poolSize = 0 then
      none
    else
      let index := randomness % poolSize
      let actual := selected.foldl (fun a s => if s ≤ a then a + 1 else a) index
      if actual < entries.length then
        match entries.get? actual with
        | some entry =>
          (lotteryAux entries rest (i + 1) (selected ++ [actual])).map fun rs =>
            { winner := entry.participant
              allocation_index := i
              randomness_value := randomness
              weight_applied := 1 } :: rs
        | none => lotteryAux entries rest (i + 1) selected
      else
        lotteryAux entries rest (i + 1) selected

/-- Model of `allocate_lottery` (allocation.rs lines 104-144): iterates
`for i in 0..quantity.min(randomness_values.len())`. -/
def allocate_lottery (entries : List LotteryEntry) (randomness_values : List Nat)
    (quantity : Nat) : Option (List AllocationResult) :=
  lotteryAux entries (randomness_values.take (min quantity randomness_values.length)) 0 []

/-- Concrete pool of five distinct participants used for the lottery
counterexamples. -/
def cexEntries : List LotteryEntry :=
  [⟨0, 0, 0, none⟩, ⟨1, 0, 0, none⟩, ⟨2, 0, 0, none⟩, ⟨3, 0, 0, none⟩, ⟨4, 0, 0, none⟩]

/-- The whitelist loop shared verbatim by `allocate_whitelist`
(allocation.rs lines 157-175) and phase 1 of
`allocate_hybrid_whitelist_lottery` (lines 192-210): walk the whitelist in
stored order, admit an entry when `allocated < allocation_limit` or
`allocation_limit == 0`, give it `allocation_index = allocation_count`,
zero randomness and the entry's weight, and stop once the count reaches
`quantity`. The `Nat` argument is the running `allocation_count`. -/
def whitelistPass (quantity : Nat) : List WhitelistEntry → Nat → List AllocationResult
  | [], _ => []
  | entry :: rest, count =>
    if quantity ≤ count then
      []
    else
      if entry.allocated < entry.allocation_limit ∨ entry.allocation_limit = 0 then
        { winner := entry.address
          allocation_index := count
          randomness_value := 0
          weight_applied := entry.weight } :: whitelistPass quantity rest (count + 1)
      else
        whitelistPass quantity rest count

/-- Model of `allocate_whitelist` (allocation.rs lines 148-178). -/
def allocate_whitelist (whitelist : List WhitelistEntry) (quantity : Nat) :
    List AllocationResult :=
  whitelistPass quantity whitelist 0

/-- Model of `allocate_hybrid_whitelist_lottery` (allocation.rs lines 181-228):
whitelist pass first, then `allocate_lottery` over the lottery entries for
`remaining = quantity - whitelist_allocated` draws, each lottery result's
`allocation_index` offset by the whitelist winner count. A lottery panic
(modelled `none`) propagates. -/
def allocate_hybrid_whitelist_lottery (whitelist : List WhitelistEntry)
    (lottery_entries : List LotteryEntry) (randomness_values : List Nat)
    (quantity : Nat) : Option (List AllocationResult) :=
  let phase1 := whitelistPass quantity whitelist 0
  let whitelistAllocated := phase1.length
  (allocate_lottery lottery_entries randomness_values (quantity - whitelistAllocated)).map
    fun lotteryResults =>
      phase1 ++ lotteryResults.map fun r =>
        { r with allocation_index := whitelistAllocated + r.allocation_index }

/-- Checked `u64` subtraction: `none` models the overflow panic of the
source's `current_time - entry_time`. -/
def checkedSub (a b : Nat) : Option Nat :=
  if b ≤ a then some (a - b) else none

/-- Option-valued map over a list, failing as soon as one element fails;
mirrors a loop whose body can panic while pushing one value per
iteration. -/
def optMap (f : α → Option β) : List α → Option (List β)
  | [] => some []
  | a :: as =>
    match f a, optMap f as with
    | some b, some bs => some (b :: bs)
    | _, _ => none

/-- The weight computation of `allocate_time_weighted` (allocation.rs lines
244-275). `earliest_time` is the first entry's `entry_time`; `latest_time`
folds `max` over all entry times starting from it. Per entry:
`age = current_time - entry_time` (checked u64 subtraction); then, only in
the `time_span > 0` branch, `age * 100` (checked u64 multiplication) and
`age_percentage = age * 100 / (time_span + 1)` cast `as u32` (truncation,
modelled `% 2 ^ 32`) with `weight = 100.saturating_sub(...)`; in the
`time_span == 0` branch the weight is `100` and no multiplication happens.
Finally `weight.max(1)`. An empty entries list yields no weights. -/
def timeWeights (entries : List LotteryEntry) (current_time : Nat) : Option (List Nat) :=
  match entries with
  | [] => some []
  | e0 :: _ =>
    let earliest_time := e0.entry_time
    let latest_time := entries.foldl (fun m e => max m e.entry_time) earliest_time
    optMap (fun entry => do
      let age ← checkedSub current_time entry.entry_time
      let time_span := latest_time - earliest_time
      let weight ←
        if 0 < time_span then
          if age * 100 < 2 ^ 64 then
            some (100 - (age * 100) / (time_span + 1) % 2 ^ 32)
          else none
        else
          some 100
      some (max weight 1)) entries

/-- The inner selection walk of `allocate_time_weighted` (allocation.rs
lines 289-306): accumulate weights with `u32` saturating adds and pick the
first entry whose cumulative weight is `>= selection_value` (source
condition `selection_value <= cumulative`), breaking after one push.
Arguments after the weights: `selection_value`, the draw number `i`, the
raw randomness, then the remaining entries, the entry index `j` and the
running cumulative sum. -/
def twPick (weights : List Nat) (selection_value i randomness : Nat) :
    List LotteryEntry → Nat → Nat → List AllocationResult
  | [], _, _ => []
  | entry :: rest, j, cumulative =>
    let weight := weights.getD j 1
    let cumulative' := min (cumulative + weight) (2 ^ 32 - 1)
    if selection_value ≤ cumulative' then
      [{ winner := entry.participant
         allocation_index := i
         randomness_value := randomness
         weight_applied := weight }]
    else
      twPick weights selection_value i randomness rest (j + 1) cumulative'

/-- The draw loop of `allocate_time_weighted` (allocation.rs lines
278-309): for each remaining randomness value (the `Nat` argument is the
draw counter `i`), total the weights with saturating adds; when the total
is positive, draw `selection_value = randomness % total_weight` (the
`as u32` cast is exact because the remainder is below the `u32` total) and
run the selection walk; otherwise push nothing. -/
def twLoop (entries : List LotteryEntry) (weights : List Nat) :
    List Nat → Nat → List AllocationResult
  | [], _ => []
  | randomness :: rest, i =>
    let total_weight := weights.foldl (fun a w => min (a + w) (2 ^ 32 - 1)) 0
    (if 0 < total_weight then
      twPick weights (randomness % total_weight) i randomness entries 0 0
    else []) ++ twLoop entries weights rest (i + 1)

/-- Model of `allocate_time_weighted` (allocation.rs lines 232-312): weights are
computed first (their arithmetic can panic, modelled `none`), then the
draw loop runs over `quantity.min(randomness_values.len())` randomness
values. `current_time` stands for `e.ledger().timestamp()`. -/
def allocate_time_weighted (entries : List LotteryEntry) (randomness_values : List Nat)
    (quantity : Nat) (current_time : Nat) : Option (List AllocationResult) :=
  (timeWeights entries current_time).map fun weights =>
    twLoop entries weights
      (randomness_values.take (min quantity randomness_values.length)) 0

/-- Model of `check_anti_sniping` (allocation.rs lines 315-332):
`window_start = current_time.saturating_sub(rate_limit_window)` (`Nat`
subtraction is saturating), count the recent entries of the participant
whose `entry_time >= window_start`, and return
`recent_count < max_entries_per_address`. `current_time` stands for
`e.ledger().timestamp()`. -/
def check_anti_sniping (participant : Nat) (config : AntiSnipingConfig)
    (recent_entries : List LotteryEntry) (current_time : Nat) : Bool :=
  let window_start := current_time - config.rate_limit_window
  let recent_count := recent_entries.foldl
    (fun c entry =>
      if entry.participant = participant ∧ window_start ≤ entry.entry_time then c + 1
      else c) 0
  decide (recent_count < config.max_entries_per_address)

/-- Model of `compute_fairness_score` (allocation.rs lines 336-358). The `u128`
arithmetic never overflows, so plain `Nat` arithmetic is exact; the final
`as u32` cast is exact because `(selection_rate - 100).min(100) <= 100`. -/
def compute_fairness_score (results : List AllocationResult) (total_entries : Nat) : Nat :=
  if results.length = 0 ∨ total_entries = 0 then
    100
  else
    let selection_rate := results.length * 100 / total_entries
    if 0 < selection_rate ∧ selection_rate ≤ 100 then
      100
    else if 100 < selection_rate then
      max (100 - min (selection_rate - 100) 100) 0
    else
      50

/-- Structure `EntropyState` from entropy.rs. -/
structure EntropyState where
  last_ledger_hash : List Nat
  last_entropy_timestamp : Nat
  entropy_counter : Nat
  entropy_ready : Bool
  deriving DecidableEq, Repr

/-- The ledger data `update_entropy_state` reads from `e.ledger()`. -/
structure LedgerInfo where
  hash : List Nat
  timestamp : Nat
  deriving DecidableEq, Repr

/-- Model of `update_entropy_state` (entropy.rs lines 100-104): refreshes hash and
timestamp from the ledger and bumps the counter with `saturating_add(1)`
(`u32` saturation modelled by `min _ (2 ^ 32 - 1)`). -/
def update_entropy_state (ledger : LedgerInfo) (state : EntropyState) : EntropyState :=
  { last_ledger_hash := ledger.hash
    last_entropy_timestamp := ledger.timestamp
    entropy_counter := min (state.entropy_counter + 1) (2 ^ 32 - 1)
    entropy_ready := state.entropy_ready }

/-- Helper for C8: filterMap over a range of in-bounds indices is a map. -/
theorem filterMap_range_get (entries : List LotteryEntry)
    (f : Nat → LotteryEntry → AllocationResult) :
    ∀ n, n ≤ entries.length →
      (List.range n).filterMap (fun i => (entries.get? i).map (f i)) =
        (List.range n).map fun i => f i (entries.getD i default)
  | 0, _ => rfl
  | n + 1, h => by
    have hn : n < entries.length := h
    rw [List.range_succ, List.filterMap_append, List.map_append,
      filterMap_range_get entries f n (Nat.le_of_succ_le h)]
    simp [List.get?_eq_getElem?, List.getD_eq_getElem?_getD, List.getElem?_eq_getElem hn]

/-- C8: `allocate_fcfs` returns exactly the first `min(quantity, len)`
entries in original order; winner i is the participant of entry i, the
`allocation_index` is the entry position, `randomness_value` is 0 and
`weight_applied` is 1. -/
theorem allocate_fcfs_first_min (entries : List LotteryEntry) (quantity : Nat) :
    allocate_fcfs entries quantity =
      (List.range (min quantity entries.length)).map fun i =>
        { winner := (entries.getD i default).participant
          allocation_index := i
          randomness_value := 0
          weight_applied := 1 } := by
  unfold allocate_fcfs
  exact filterMap_range_get entries _ _ (Nat.min_le_right _ _)

/-- C2 (code bug): with an empty entries pool, a non-empty randomness batch
and positive quantity, `allocate_lottery` computes `randomness % 0`, which
panics (modelled by `none`) instead of degrading to an empty result list. -/
theorem allocate_lottery_empty_pool_panics :
    allocate_lottery [] [7] 1 = none := by decide

/-- C1 (code bug): with five entries, randomness batch `[3, 0, 2]` and
quantity 3 (= K ≤ N = 5), `allocate_lottery` selects entry index 3 twice:
the third draw remaps raw index 2 past the selected list `[3, 0]` scanned
in insertion order (not ascending) and lands on 3 again, so the winners
are `[3, 0, 3]`, which are not distinct. -/
theorem allocate_lottery_duplicate_winner :
    (allocate_lottery cexEntries [3, 0, 2] 3).map (List.map fun r => r.winner) =
        some [3, 0, 3] ∧
      ¬ ([3, 0, 3] : List Nat).Nodup := by decide

/-- Helper: the counting fold of `check_anti_sniping` equals `countP`. -/
theorem foldl_count_eq (p : LotteryEntry → Prop) [DecidablePred p] :
    ∀ (l : List LotteryEntry) (n : Nat),
      l.foldl (fun c e => if p e then c + 1 else c) n =
        n + l.countP fun e => decide (p e)
  | [], n => by simp
  | e :: l, n => by
    by_cases h : p e
    · simp only [List.foldl_cons, List.countP_cons, h, foldl_count_eq p l]
      simp only [decide_eq_true_eq, if_pos trivial]
      omega
    · simp [List.countP_cons, h, foldl_count_eq p l]

/-- C6: `check_anti_sniping` returns true iff the number of recent entries
of the participant with `entry_time >= current_time.saturating_sub(rate_limit_window)`
is strictly below `max_entries_per_address`. -/
theorem check_anti_sniping_iff (participant : Nat) (config : AntiSnipingConfig)
    (recent_entries : List LotteryEntry) (current_time : Nat) :
    check_anti_sniping participant config recent_entries current_time = true ↔
      (recent_entries.countP fun e =>
          decide (e.participant = participant ∧
            current_time - config.rate_limit_window ≤ e.entry_time)) <
        config.max_entries_per_address := by
  simp only [check_anti_sniping]
  rw [foldl_count_eq]
  simp

/-- C7: `compute_fairness_score` always lies in `[0, 100]` and is exactly
100 on an empty results list or a zero entry total. -/
theorem compute_fairness_score_bounds (results : List AllocationResult)
    (total_entries : Nat) :
    compute_fairness_score results total_entries ≤ 100 ∧
      (results = [] → compute_fairness_score results total_entries = 100) ∧
      (total_entries = 0 → compute_fairness_score results total_entries = 100) := by
  refine ⟨?_, fun h => by simp [compute_fairness_score, h], fun h => by
    simp [compute_fairness_score, h]⟩
  simp only [compute_fairness_score]
  split_ifs <;> omega

/-- Witness for C7 at `results = []`, `total_entries = 0`. -/
theorem compute_fairness_score_bounds_witness :
    compute_fairness_score [] 0 ≤ 100 ∧ compute_fairness_score [] 0 = 100 :=
  ⟨(compute_fairness_score_bounds [] 0).1,
    (compute_fairness_score_bounds [] 0).2.1 rfl⟩

/-- C9 counterexample: at the saturation value `u32::MAX = 2 ^ 32 - 1`,
`update_entropy_state` leaves the counter unchanged, so the counter does
not strictly increase on that call. -/
theorem update_entropy_counter_saturates :
    (update_entropy_state ⟨[], 0⟩ ⟨[], 0, 2 ^ 32 - 1, true⟩).entropy_counter =
        2 ^ 32 - 1 ∧
      ¬ 2 ^ 32 - 1 <
        (update_entropy_state ⟨[], 0⟩ ⟨[], 0, 2 ^ 32 - 1, true⟩).entropy_counter := by
  exact ⟨by simp [update_entropy_state], by simp [update_entropy_state]⟩

/-- C9 amended: for a counter in `u32` range, `update_entropy_state` never
decreases the counter, and strictly increases it (by exactly one) whenever
it is below the saturation value `2 ^ 32 - 1`. -/
theorem update_entropy_counter_monotone (ledger : LedgerInfo) (state : EntropyState)
    (h : state.entropy_counter ≤ 2 ^ 32 - 1) :
    state.entropy_counter ≤ (update_entropy_state ledger state).entropy_counter ∧
      (state.entropy_counter < 2 ^ 32 - 1 →
        (update_entropy_state ledger state).entropy_counter =
          state.entropy_counter + 1) := by
  unfold update_entropy_state
  refine ⟨?_, fun hlt => ?_⟩ <;> simp <;> omega

/-- Witness for C9 amended at counter 5. -/
theorem update_entropy_counter_monotone_witness :
    5 ≤ (update_entropy_state ⟨[], 0⟩ ⟨[], 0, 5, true⟩).entropy_counter ∧
      (5 < 2 ^ 32 - 1 →
        (update_entropy_state ⟨[], 0⟩ ⟨[], 0, 5, true⟩).entropy_counter = 5 + 1) :=
  update_entropy_counter_monotone ⟨[], 0⟩ ⟨[], 0, 5, true⟩ (by norm_num)

/-- Helper: the selected-index remap of `allocate_lottery` bumps the raw
index at most once per scanned element. -/
theorem foldl_bump_le :
    ∀ (l : List Nat) (x : Nat),
      l.foldl (fun a s => if s ≤ a then a + 1 else a) x ≤ x + l.length
  | [], x => by simp
  | s :: l, x => by
    simp only [List.foldl_cons, List.length_cons]
    refine le_trans (foldl_bump_le l _) ?_
    split_ifs <;> omega

/-- Helper: a successful `lotteryAux` run pushes exactly one result per
randomness value, and the `allocation_index` values are the consecutive
draw counters. -/
theorem lotteryAux_some_spec (entries : List LotteryEntry) :
    ∀ (rands : List Nat) (i : Nat) (selected : List Nat) (rs : List AllocationResult),
      lotteryAux entries rands i selected = some rs →
      rs.length = rands.length ∧
        rs.map (fun r => r.allocation_index) = List.range' i rands.length
  | [], i, selected, rs, h => by
    simp only [lotteryAux, Option.some.injEq] at h
    subst h
    simp [List.range']
  | r :: rest, i, selected, rs, h => by
    simp only [lotteryAux] at h
    by_cases hpool : entries.length - selected.length = 0
    · rw [if_pos hpool] at h
      exact absurd h (by simp)
    · rw [if_neg hpool] at h
      have hidx : r % (entries.length - selected.length) <
          entries.length - selected.length :=
        Nat.mod_lt _ (Nat.pos_of_ne_zero hpool)
      have hact : selected.foldl (fun a s => if s ≤ a then a + 1 else a)
          (r % (entries.length - selected.length)) < entries.length := by
        have hb := foldl_bump_le selected (r % (entries.length - selected.length))
        omega
      rw [if_pos hact] at h
      obtain ⟨e, he⟩ : ∃ e, entries.get?
          (selected.foldl (fun a s => if s ≤ a then a + 1 else a)
            (r % (entries.length - selected.length))) = some e := by
        rw [List.get?_eq_getElem?]
        exact ⟨_, List.getElem?_eq_getElem hact⟩
      rw [he] at h
      obtain ⟨rs', hrec, hcons⟩ := Option.map_eq_some'.mp h
      obtain ⟨hlen, hmap⟩ := lotteryAux_some_spec entries rest (i + 1) _ rs' hrec
      subst hcons
      refine ⟨by simp [hlen], ?_⟩
      simp only [List.map_cons, hmap, List.length_cons, List.range'_succ]

/-- Helper: the whitelist pass never produces more than
`quantity - count` winners. -/
theorem whitelistPass_length_le (quantity : Nat) :
    ∀ (wl : List WhitelistEntry) (count : Nat),
      (whitelistPass quantity wl count).length ≤ quantity - count
  | [], count => by simp [whitelistPass]
  | e :: wl, count => by
    simp only [whitelistPass]
    split_ifs with h1 h2
    · simp
    · simp only [List.length_cons]
      have := whitelistPass_length_le quantity wl (count + 1)
      omega
    · exact whitelistPass_length_le quantity wl count

/-- Helper: the whitelist pass assigns consecutive `allocation_index`
values starting at the running count. -/
theorem whitelistPass_map_index (quantity : Nat) :
    ∀ (wl : List WhitelistEntry) (count : Nat),
      (whitelistPass quantity wl count).map (fun r => r.allocation_index) =
        List.range' count (whitelistPass quantity wl count).length
  | [], count => by simp [whitelistPass]
  | e :: wl, count => by
    simp only [whitelistPass]
    split_ifs with h1 h2
    · simp
    · simp only [List.map_cons, List.length_cons, List.range'_succ,
        whitelistPass_map_index quantity wl (count + 1)]
    · exact whitelistPass_map_index quantity wl count

/-- Helper: the inner time-weighted selection walk pushes at most one
result (it breaks after the first hit). -/
theorem twPick_length_le_one (weights : List Nat) (sel i r : Nat) :
    ∀ (entries : List LotteryEntry) (j cum : Nat),
      (twPick weights sel i r entries j cum).length ≤ 1
  | [], _, _ => by simp [twPick]
  | e :: rest, j, cum => by
    simp only [twPick]
    split_ifs
    · simp
    · exact twPick_length_le_one weights sel i r rest _ _

/-- Helper: the time-weighted draw loop pushes at most one result per
randomness value. -/
theorem twLoop_length_le (entries : List LotteryEntry) (weights : List Nat) :
    ∀ (rands : List Nat) (i : Nat),
      (twLoop entries weights rands i).length ≤ rands.length
  | [], _ => by simp [twLoop]
  | r :: rest, i => by
    simp only [twLoop, List.length_append, List.length_cons]
    have h1 : (if 0 < weights.foldl (fun a w => min (a + w) (2 ^ 32 - 1)) 0 then
        twPick weights (r % weights.foldl (fun a w => min (a + w) (2 ^ 32 - 1)) 0)
          i r entries 0 0
      else []).length ≤ 1 := by
      split_ifs
      · exact twPick_length_le_one _ _ _ _ _ _ _
      · simp
    have h2 := twLoop_length_le entries weights rest (i + 1)
    omega

/-- C3: none of the five allocation operations returns more results than
the requested quantity (for the fallible ones, whenever the call returns
at all). -/
theorem allocation_results_le_quantity (quantity current_time : Nat)
    (entries lottery_entries : List LotteryEntry) (whitelist : List WhitelistEntry)
    (randomness_values : List Nat) :
    (allocate_fcfs entries quantity).length ≤ quantity ∧
      (∀ rs, allocate_lottery entries randomness_values quantity = some rs →
        rs.length ≤ quantity) ∧
      (allocate_whitelist whitelist quantity).length ≤ quantity ∧
      (∀ rs, allocate_hybrid_whitelist_lottery whitelist lottery_entries
          randomness_values quantity = some rs → rs.length ≤ quantity) ∧
      (∀ rs, allocate_time_weighted entries randomness_values quantity
          current_time = some rs → rs.length ≤ quantity) := by
  refine ⟨?_, ?_, ?_, ?_, ?_⟩
  · refine le_trans (List.length_filterMap_le _ _) ?_
    simp only [List.length_range]
    omega
  · intro rs h
    obtain ⟨hlen, -⟩ := lotteryAux_some_spec entries _ 0 [] rs h
    simp only [List.length_take] at hlen
    omega
  · have := whitelistPass_length_le quantity whitelist 0
    simpa [allocate_whitelist] using this
  · intro rs h
    simp only [allocate_hybrid_whitelist_lottery] at h
    obtain ⟨lrs, hl, hcons⟩ := Option.map_eq_some'.mp h
    subst hcons
    obtain ⟨hlen, -⟩ := lotteryAux_some_spec lottery_entries _ 0 [] lrs hl
    have hw := whitelistPass_length_le quantity whitelist 0
    simp only [List.length_take] at hlen
    simp only [List.length_append, List.length_map]
    omega
  · intro rs h
    simp only [allocate_time_weighted] at h
    obtain ⟨weights, -, hcons⟩ := Option.map_eq_some'.mp h
    subst hcons
    refine le_trans (twLoop_length_le entries weights _ 0) ?_
    simp only [List.length_take]
    omega

/-- Witness for C3 at quantity 1 with singleton pools. -/
theorem allocation_results_le_quantity_witness :
    (allocate_fcfs [⟨0, 0, 0, none⟩] 1).length ≤ 1 ∧
      ([⟨0, 0, 0, 1⟩] : List AllocationResult).length ≤ 1 ∧
      (allocate_whitelist [⟨7, 1, 0, 0⟩] 1).length ≤ 1 ∧
      ([⟨7, 0, 0, 1⟩] : List AllocationResult).length ≤ 1 ∧
      ([⟨0, 0, 0, 100⟩] : List AllocationResult).length ≤ 1 := by
  have T := allocation_results_le_quantity 1 0 [⟨0, 0, 0, none⟩] [⟨0, 0, 0, none⟩]
    [⟨7, 1, 0, 0⟩] [0]
  exact ⟨T.1, T.2.1 _ rfl, T.2.2.1, T.2.2.2.1 _ rfl, T.2.2.2.2 _ rfl⟩

/-- C4: a successful hybrid allocation is the whitelist winners (with
dense indices from 0) followed by the lottery winners for the remaining
`quantity - w` slots, each lottery index offset by the whitelist winner
count `w ≤ quantity`, so the `allocation_index` values of the whole result
are exactly `0, 1, ..., len - 1`. -/
theorem hybrid_whitelist_then_offset_lottery (whitelist : List WhitelistEntry)
    (lottery_entries : List LotteryEntry) (randomness_values : List Nat)
    (quantity : Nat) (rs : List AllocationResult)
    (h : allocate_hybrid_whitelist_lottery whitelist lottery_entries
      randomness_values quantity = some rs) :
    ∃ lotteryResults,
      allocate_lottery lottery_entries randomness_values
          (quantity - (allocate_whitelist whitelist quantity).length) =
        some lotteryResults ∧
      rs = allocate_whitelist whitelist quantity ++
          lotteryResults.map (fun r =>
            { r with allocation_index :=
                (allocate_whitelist whitelist quantity).length +
                  r.allocation_index }) ∧
      (allocate_whitelist whitelist quantity).length ≤ quantity ∧
      rs.map (fun r => r.allocation_index) = List.range rs.length := by
  simp only [allocate_hybrid_whitelist_lottery] at h
  obtain ⟨lrs, hl, hcons⟩ := Option.map_eq_some'.mp h
  subst hcons
  obtain ⟨hlen, hmap⟩ := lotteryAux_some_spec lottery_entries _ 0 [] lrs hl
  refine ⟨lrs, hl, rfl, ?_, ?_⟩
  · have := whitelistPass_length_le quantity whitelist 0
    simpa [allocate_whitelist] using this
  · rw [List.map_append, List.map_map]
    have hcomp : ((fun r => r.allocation_index) ∘ fun r =>
        { r with allocation_index :=
            (whitelistPass quantity whitelist 0).length + r.allocation_index }) =
        (fun x => (whitelistPass quantity whitelist 0).length + x) ∘
          fun r : AllocationResult => r.allocation_index := rfl
    rw [hcomp, ← List.map_map, hmap, whitelistPass_map_index,
      List.map_add_range', List.length_append, List.length_map,
      List.range_eq_range', hlen]
    have := List.range'_append 0 (whitelistPass quantity whitelist 0).length
      ((randomness_values.take (min (quantity -
        (whitelistPass quantity whitelist 0).length)
        randomness_values.length)).length) 1
    simpa [Nat.add_comm] using this

/-- Witness for C4: one always-eligible whitelist entry, a two-entry
lottery pool, one randomness value, quantity 2. -/
theorem hybrid_whitelist_then_offset_lottery_witness :
    ([⟨7, 0, 0, 2⟩, ⟨2, 1, 1, 1⟩] : List AllocationResult).map
        (fun r => r.allocation_index) = List.range 2 := by
  obtain ⟨lrs, h1, h2, h3, h4⟩ := hybrid_whitelist_then_offset_lottery
    [⟨7, 2, 0, 0⟩] [⟨1, 0, 0, none⟩, ⟨2, 0, 0, none⟩] [1] 2
    [⟨7, 0, 0, 2⟩, ⟨2, 1, 1, 1⟩] rfl
  exact h4

/-- Helper: `optMap` of a nowhere-failing function is a map. -/
theorem optMap_eq_map (f : α → Option β) (g : α → β) :
    ∀ (l : List α), (∀ a ∈ l, f a = some (g a)) → optMap f l = some (l.map g)
  | [], _ => rfl
  | a :: l, h => by
    simp only [optMap, h a (by simp),
      optMap_eq_map f g l (fun x hx => h x (by simp [hx])), List.map_cons]

/-- C5 counterexample. First input (sorted entry times `[0, 1]`, current
time `2 ^ 31`): the code's `as u32` truncation of `age * 100 / (time_span + 1)`
makes the first weight 100, while the claim's untruncated formula
`max(1, 100 - (now - entry_time) * 100 / (time_span + 1))` gives 1.
Second input (entry times `[10, 0, 20]`, current time 20): the code
measures the spread from the FIRST entry's time (span 10), not from the
earliest (span 20), producing weights `[10, 1, 100]` where the claim's
formula over the true earliest/latest spread gives `[53, 5, 100]`.
Third input: with entry times `[0, 1]` at current time `2 ^ 63` the
multiplication `age * 100` overflows `u64` and the weights are not
computed at all, although every `entry_time` is at most the current
time. -/
theorem time_weighted_weight_formula_cex :
    timeWeights [⟨0, 0, 0, none⟩, ⟨1, 1, 0, none⟩] (2 ^ 31) = some [100, 1] ∧
      max 1 (100 - (2 ^ 31 - 0) * 100 / (1 + 1)) = 1 ∧
      timeWeights [⟨0, 10, 0, none⟩, ⟨1, 0, 0, none⟩, ⟨2, 20, 0, none⟩] 20 =
        some [10, 1, 100] ∧
      [max 1 (100 - (20 - 10) * 100 / (20 - 0 + 1)),
          max 1 (100 - (20 - 0) * 100 / (20 - 0 + 1)),
          max 1 (100 - (20 - 20) * 100 / (20 - 0 + 1))] = [53, 5, 100] ∧
      timeWeights [⟨0, 0, 0, none⟩, ⟨1, 1, 0, none⟩] (2 ^ 63) = none := by
  refine ⟨by decide, by decide, by decide, by decide, by decide⟩

/-- C5 amended: for a non-empty entries list whose entry times are at most
the current time and whose ages satisfy `age * 100 < 2 ^ 64` whenever the
time span is positive (the multiplication happens only in that branch),
the weight of each entry is 100 when the time span is 0 and otherwise
`max(1, 100 - (age * 100 / (time_span + 1)) mod 2 ^ 32)` (the `as u32`
truncation), where `time_span` is the spread between the latest entry time
and the FIRST entry's time; every weight lies in `[1, 100]`. -/
theorem time_weighted_weight_formula (e0 : LotteryEntry) (rest : List LotteryEntry)
    (current_time : Nat)
    (hpast : ∀ e ∈ e0 :: rest, e.entry_time ≤ current_time)
    (hfit : 0 < ((e0 :: rest).foldl (fun m e => max m e.entry_time)
        e0.entry_time) - e0.entry_time →
      ∀ e ∈ e0 :: rest, (current_time - e.entry_time) * 100 < 2 ^ 64) :
    ∃ ws, timeWeights (e0 :: rest) current_time = some ws ∧
      ws.length = rest.length + 1 ∧
      (∀ w ∈ ws, 1 ≤ w ∧ w ≤ 100) ∧
      ∀ time_span,
        time_span =
          ((e0 :: rest).foldl (fun m e => max m e.entry_time) e0.entry_time) -
            e0.entry_time →
        ∀ i, (hi : i < rest.length + 1) →
          ws.get? i = some
            (if time_span = 0 then 100
             else max 1 (100 -
               (current_time - ((e0 :: rest).get ⟨i, hi⟩).entry_time) * 100 /
                 (time_span + 1) % 2 ^ 32)) := by
  have hunf : timeWeights (e0 :: rest) current_time =
      optMap (fun entry => do
        let age ← checkedSub current_time entry.entry_time
        let time_span :=
          ((e0 :: rest).foldl (fun m e => max m e.entry_time) e0.entry_time) -
            e0.entry_time
        let weight ←
          if 0 < time_span then
            if age * 100 < 2 ^ 64 then
              some (100 - (age * 100) / (time_span + 1) % 2 ^ 32)
            else none
          else
            some 100
        some (max weight 1)) (e0 :: rest) := rfl
  have hall : ∀ e ∈ e0 :: rest, (do
      let age ← checkedSub current_time e.entry_time
      let time_span :=
        ((e0 :: rest).foldl (fun m e => max m e.entry_time) e0.entry_time) -
          e0.entry_time
      let weight ←
        if 0 < time_span then
          if age * 100 < 2 ^ 64 then
            some (100 - (age * 100) / (time_span + 1) % 2 ^ 32)
          else none
        else
          some 100
      some (max weight 1)) = some (max
        (if 0 < ((e0 :: rest).foldl (fun m e => max m e.entry_time)
            e0.entry_time) - e0.entry_time then
          100 - (current_time - e.entry_time) * 100 /
            ((((e0 :: rest).foldl (fun m e => max m e.entry_time)
              e0.entry_time) - e0.entry_time) + 1) % 2 ^ 32
        else 100) 1) := by
    intro e he
    have h1 : checkedSub current_time e.entry_time =
        some (current_time - e.entry_time) := by
      simp [checkedSub, hpast e he]
    rw [h1]
    simp only [Option.bind_eq_bind, Option.some_bind]
    by_cases hS : 0 < ((e0 :: rest).foldl (fun m e => max m e.entry_time)
        e0.entry_time) - e0.entry_time
    · rw [if_pos hS, if_pos (hfit hS e he), if_pos hS]
    · rw [if_neg hS, if_neg hS]
  refine ⟨(e0 :: rest).map (fun e => max
      (if 0 < ((e0 :: rest).foldl (fun m e => max m e.entry_time)
          e0.entry_time) - e0.entry_time then
        100 - (current_time - e.entry_time) * 100 /
          ((((e0 :: rest).foldl (fun m e => max m e.entry_time)
            e0.entry_time) - e0.entry_time) + 1) % 2 ^ 32
      else 100) 1), ?_, by simp, ?_, ?_⟩
  · rw [hunf]
    exact optMap_eq_map _ _ _ hall
  · intro w hw
    obtain ⟨e, he, rfl⟩ := List.mem_map.mp hw
    refine ⟨Nat.le_max_right _ 1, ?_⟩
    refine max_le ?_ (by norm_num)
    split_ifs
    · exact Nat.sub_le 100 _
    · exact le_refl 100
  · intro time_span hts i hi
    subst hts
    have hilen : i < (e0 :: rest).length := by simpa using hi
    rw [List.get?_map, List.get?_eq_get hilen]
    simp only [Option.map_some', Option.some.injEq, List.foldl_cons, max_self]
    by_cases hs : rest.foldl (fun m e => max m e.entry_time) e0.entry_time -
        e0.entry_time = 0
    · simp [hs]
    · rw [if_neg hs, if_pos (Nat.pos_of_ne_zero hs), Nat.max_comm]

/-- Witness for C5 amended at entry times `[5, 7]`, current time 10. -/
theorem time_weighted_weight_formula_witness :
    ∃ ws, timeWeights [⟨0, 5, 0, none⟩, ⟨1, 7, 0, none⟩] 10 = some ws ∧
      ws.length = 2 ∧ ∀ w ∈ ws, 1 ≤ w ∧ w ≤ 100 := by
  obtain ⟨ws, h1, h2, h3, h4⟩ := time_weighted_weight_formula ⟨0, 5, 0, none⟩
    [⟨1, 7, 0, none⟩] 10 (by decide) (by decide)
  exact ⟨ws, h1, h2, h3⟩

/-- C10: with an entry whose `entry_time` (10) exceeds the ledger timestamp
(5), a non-empty randomness batch and positive quantity, the age
computation `current_time - entry_time` underflows and
`allocate_time_weighted` fails (`none`) instead of returning results. -/
theorem time_weighted_future_entry_fails :
    allocate_time_weighted [⟨0, 10, 0, none⟩] [1] 1 5 = none := by decide

end Gatherraa
